import Mathlib

/-!
Shallow embedding of `Metagenomics_pipeline/kraken_abundance_pipeline.py`
(functions `process_sample` and `aggregate_kraken_results`) together with
proofs of the specification claims about them.

Python string primitives (`str.split`, `str.join`, `str.strip`,
`str.endswith`, `int(...)`, `os.path.join`) are embedded as executable
Lean functions over `String`/`List Char` with the same semantics, so that
every definition can be evaluated on concrete inputs inside proofs.
External collaborator tools (`run_trimmomatic`, `run_bowtie2`,
`run_kraken2`) and the filesystem are passed in as explicit oracles, and
every call to a collaborator is recorded in an event list.
-/

namespace KrakenPipeline

/-- Python `str.isspace` characters relevant to `str.strip()`. -/
def pyIsSpace (c : Char) : Bool :=
  c == ' ' || c == '\t' || c == '\n' || c == '\r' || c == '\x0b' || c == '\x0c'

/-- Strip leading and trailing whitespace from a character list
(Python `str.strip()`). -/
def pyStripChars (cs : List Char) : List Char :=
  ((cs.dropWhile pyIsSpace).reverse.dropWhile pyIsSpace).reverse

/-- Python `str.strip()`. -/
def pyStrip (s : String) : String :=
  ⟨pyStripChars s.data⟩

/-- Split a character list on a separator character; Python
`str.split(sep)` semantics (empty chunks kept, `[] ↦ [[]]`). -/
def splitChars (sep : Char) : List Char → List (List Char)
  | [] => [[]]
  | c :: cs =>
    match splitChars sep cs with
    | [] => [[]]
    | w :: ws => if c = sep then [] :: w :: ws else (c :: w) :: ws

/-- Python `s.split(sep)` for a one-character separator. -/
def pySplit (sep : Char) (s : String) : List String :=
  (splitChars sep s.data).map (fun cs => (⟨cs⟩ : String))

/-- Join character lists with a separator character (Python
`sep.join` at the character-list level). -/
def joinChars (sep : Char) : List (List Char) → List Char
  | [] => []
  | w :: ws =>
    match ws with
    | [] => w
    | _ :: _ => w ++ sep :: joinChars sep ws

/-- Python `sep.join(xs)`. -/
def pyJoin (sep : String) : List String → String
  | [] => ""
  | x :: xs =>
    match xs with
    | [] => x
    | _ :: _ => x ++ sep ++ pyJoin sep xs

/-- Python `s.endswith(suffix)`. -/
def pyEndsWith (s suffix : String) : Bool :=
  suffix.data.isSuffixOf s.data

/-- Python `s.startswith(pre)`. -/
def pyStartsWith (s pre : String) : Bool :=
  pre.data.isPrefixOf s.data

/-- Python `os.path.join(a, b)` on POSIX for the cases used by the
pipeline: an absolute `b` wins; otherwise `a` and `b` are glued with a
single `/` unless `a` is empty or already ends in `/`. -/
def osPathJoin (a b : String) : String :=
  if pyStartsWith b "/" then b
  else if a == "" then b
  else if pyEndsWith a "/" then a ++ b
  else a ++ "/" ++ b

/-- Value of a nonempty all-digit character list (helper for `pyInt`). -/
def digitsVal (ds : List Char) : Option Nat :=
  if ds.isEmpty || !(ds.all Char.isDigit) then none
  else some (ds.foldl (fun a c => a * 10 + (c.toNat - '0'.toNat)) 0)

/-- Python `int(s)` for decimal strings: optional surrounding whitespace,
optional sign, then at least one digit; anything else raises `ValueError`,
modelled as `none`. -/
def pyInt (s : String) : Option Int :=
  match pyStripChars s.data with
  | '-' :: ds => (digitsVal ds).map (fun n => -(n : Int))
  | '+' :: ds => (digitsVal ds).map (fun n => (n : Int))
  | ds => (digitsVal ds).map (fun n => (n : Int))

/-- One report row after the field extraction of lines 60-66 of
`aggregate_kraken_results`: the six positional fields of a Kraken report
line, with the third field converted by `int(...)`. -/
structure ParsedRow where
  perc_frag_cover : String
  nr_frag_cover : String
  nr_frag_direct_at_taxon : Int
  rank_code : String
  ncbi_ID : String
  scientific_name : String
deriving Repr, DecidableEq

/-- `line.strip().split('\t')` followed by the indexed accesses
`fields[0]` … `fields[5]` and `int(fields[2])`; a missing field
(`IndexError`) or a failed conversion (`ValueError`) raises, modelled as
`none`. -/
def parseLine (line : String) : Option ParsedRow :=
  let fields := pySplit '\t' (pyStrip line)
  match fields.get? 0, fields.get? 1, fields.get? 2,
        fields.get? 3, fields.get? 4, fields.get? 5 with
  | some f0, some f1, some f2, some f3, some f4, some f5 =>
    match pyInt f2 with
    | some n => some ⟨f0, f1, n, f3, f4, f5⟩
    | none => none
  | _, _, _, _, _, _ => none

/-- `'_'.join(file_name.split('_')[:-1])` (lines 67-68). -/
def extractedPart (file_name : String) : String :=
  pyJoin "_" ((pySplit '_' file_name).dropLast)

/-- A pandas DataFrame reduced to what the aggregation uses: an ordered
list of column names and rows of cell values (all cells coerced to
strings). -/
structure Metadata where
  columns : List String
  rows : List (List String)
deriving Repr, DecidableEq

/-- `extracted_part in metadata[sample_id_col].unique()` where
`sample_id_col` is the first column (line 72). -/
def mdHas (md : Metadata) (e : String) : Bool :=
  md.rows.any (fun r => r.head? == some e)

/-- `metadata.loc[metadata[sample_id_col] == extracted_part].iloc[0]`
(line 73): the first metadata row whose first cell equals `e`. -/
def mdRowFor (md : Metadata) (e : String) : Option (List String) :=
  md.rows.find? (fun r => r.head? == some e)

/-- A Python dict with string keys and string values, as an association
list in insertion order; on duplicate keys the later binding wins
(see `dlookup`). -/
abbrev RecordDict := List (String × String)

/-- Dict lookup where the LAST binding of a key wins, matching the
semantics of building a dict literal with `**`-merge. -/
def dlookup (d : RecordDict) (k : String) : Option String :=
  match d with
  | [] => none
  | p :: rest =>
    match dlookup rest k with
    | some v => some v
    | none => if p.1 == k then some p.2 else none

/-- The dict built at lines 74-83: the six report fields, `SampleID`, then
`**sample_metadata` (the whole matching metadata row keyed by column
name, which on a key clash overrides the earlier entries). The `none`
branch of `mdRowFor` is unreachable because the assignment is guarded by
`mdHas`. -/
def mkRec (md : Metadata) (e : String) (pr : ParsedRow) : RecordDict :=
  [("Perc_frag_cover", pr.perc_frag_cover),
   ("Nr_frag_cover", pr.nr_frag_cover),
   ("Nr_frag_direct_at_taxon", toString pr.nr_frag_direct_at_taxon),
   ("Rank_code", pr.rank_code),
   ("NCBI_ID", pr.ncbi_ID),
   ("Scientific_name", pr.scientific_name),
   ("SampleID", e)]
  ++ (match mdRowFor md e with
      | some r => md.columns.zip r
      | none => [])

/-- `aggregated_results[key] = value` on a Python dict kept as an
insertion-ordered association list: replace the binding in place when the
key is present (a dict holds at most one binding per key), append
otherwise. -/
def updAssoc : List (String × RecordDict) → String → RecordDict →
    List (String × RecordDict)
  | [], k, v => [(k, v)]
  | p :: m, k, v => if p.1 == k then (k, v) :: m else p :: updAssoc m k v

/-- Lookup in the aggregated-results dict (first, hence unique, binding). -/
def lookupA (m : List (String × RecordDict)) (k : String) : Option RecordDict :=
  (m.find? (fun p => p.1 == k)).map (fun p => p.2)

/-- Number of entries stored under a key. -/
def keyCount (m : List (String × RecordDict)) (k : String) : Nat :=
  (m.filter (fun p => p.1 == k)).length

/-- The mutable state of the aggregation loop: `aggregated_results`
(line 52) and the `sampleid` list (line 53). -/
structure AggState where
  results : List (String × RecordDict)
  sampleid : List String
deriving Repr, DecidableEq

/-- The filter of lines 71-72 as one condition: rank code `'S'`, direct
fragment count at least `read_count`, and the extracted sample id present
in the metadata identifier column. -/
def passesB (md : Metadata) (read_count : Int) (e : String) (pr : ParsedRow) : Bool :=
  pr.rank_code == "S" && decide (read_count ≤ pr.nr_frag_direct_at_taxon) && mdHas md e

/-- The body of the per-line loop (lines 67-83) for an already parsed row
of the file with extracted sample id `e`: append `e` to `sampleid`
unconditionally, then store the record under `extracted_part + ncbi_ID`
when the rank/threshold/metadata conditions hold. -/
def stepLine (md : Metadata) (read_count : Int) (e : String)
    (st : AggState) (pr : ParsedRow) : AggState :=
  let sampleandtaxonid := e ++ pr.ncbi_ID
  let st1 : AggState := ⟨st.results, st.sampleid ++ [e]⟩
  if pr.rank_code == "S" && decide (read_count ≤ pr.nr_frag_direct_at_taxon) then
    if mdHas md e then
      ⟨updAssoc st1.results sampleandtaxonid (mkRec md e pr), st1.sampleid⟩
    else st1
  else st1

/-- Fold of `stepLine` over a stream of (extracted sample id, parsed row)
pairs, in encounter order. -/
def processRows (md : Metadata) (read_count : Int) :
    AggState → List (String × ParsedRow) → AggState
  | st, [] => st
  | st, p :: ps => processRows md read_count (stepLine md read_count p.1 st p.2) ps

/-- The `for line in f` loop over one report file (lines 59-83); a line
that fails to parse raises, aborting the whole aggregation (`none`). -/
def processLines (md : Metadata) (read_count : Int) (e : String) :
    AggState → List String → Option AggState
  | st, [] => some st
  | st, l :: ls =>
    match parseLine l with
    | none => none
    | some pr => processLines md read_count e (stepLine md read_count e st pr) ls

/-- One directory entry of `kraken_dir`: its file name and, when it is a
report file, the lines of its contents (without trailing newlines). -/
structure FileEntry where
  name : String
  lines : List String
deriving Repr, DecidableEq

/-- The `for file_name in os.listdir(kraken_dir)` loop (lines 56-83):
process every entry whose name ends with `_report.txt`, skip the rest. -/
def processFiles (md : Metadata) (read_count : Int) :
    AggState → List FileEntry → Option AggState
  | st, [] => some st
  | st, f :: fs =>
    if pyEndsWith f.name "_report.txt" then
      match processLines md read_count (extractedPart f.name) st f.lines with
      | none => none
      | some st' => processFiles md read_count st' fs
    else processFiles md read_count st fs

/-- Metadata resolution (lines 42-49): a truthy `metadata_file` that
exists on disk is loaded with `pd.read_csv` (the oracle `load`); else a
provided `sample_id_df` is used; else the `ValueError` of line 49 aborts.
Reading `metadata.columns[0]` raises when there is no column, which the
final guard models. -/
def resolveMetadata (fsExists : String → Bool) (load : String → Metadata)
    (metadata_file : Option String) (sample_id_df : Option Metadata) :
    Option Metadata :=
  let chosen : Option Metadata :=
    match metadata_file with
    | some p => if !(p == "") && fsExists p then some (load p) else sample_id_df
    | none => sample_id_df
  match chosen with
  | none => none
  | some md => if md.columns.isEmpty then none else some md

/-- The header list of line 89: the six report fields, `SampleID`, then
`metadata.columns[1:]`. -/
def mergedHeaders (md : Metadata) : List String :=
  ["Perc_frag_cover", "Nr_frag_cover", "Nr_frag_direct_at_taxon",
   "Rank_code", "NCBI_ID", "Scientific_name", "SampleID"] ++ md.columns.drop 1

/-- The lookups `data[col] for col in headers` (line 92); a missing key
raises `KeyError`, modelled as `none`. -/
def lookupAll (rec : RecordDict) : List String → Option (List String)
  | [] => some []
  | c :: cs =>
    match dlookup rec c, lookupAll rec cs with
    | some v, some vs => some (v :: vs)
    | _, _ => none

/-- Line 92: `"\t".join(str(data[col]) for col in headers)`; a header
column missing from the record dict raises `KeyError`, modelled as
`none`. -/
def renderRow (headers : List String) (rec : RecordDict) : Option String :=
  (lookupAll rec headers).map (fun vals => pyJoin "\t" vals)

/-- The write loop of lines 91-92 over the aggregated records, in dict
iteration (insertion) order. -/
def renderRows (headers : List String) : List (String × RecordDict) → Option (List String)
  | [] => some []
  | p :: ps =>
    match renderRow headers p.2, renderRows headers ps with
    | some row, some rest => some (row :: rest)
    | _, _ => none

/-- The files written on success: the merged TSV (path and lines, header
line first) and the sample-id CSV (path and lines, header `Sample_IDs`
first, one sample id per row). -/
structure AggOutput where
  merged_path : String
  merged_lines : List String
  sampleid_path : String
  sampleid_lines : List String
deriving Repr, DecidableEq

/-- `aggregate_kraken_results(kraken_dir, metadata_file, sample_id_df,
read_count)` (lines 39-103). The directory listing is passed as `files`,
the filesystem and `pd.read_csv` as oracles. Any exception along the way
(no metadata, unparseable report line, missing dict key while writing) is
caught by the top-level `except` and becomes `none`; on success the
function returns the written files, whose `merged_path` component is the
function's return value `merged_tsv_path`. -/
def aggregate_kraken_results (fsExists : String → Bool) (load : String → Metadata)
    (kraken_dir : String) (files : List FileEntry)
    (metadata_file : Option String) (sample_id_df : Option Metadata)
    (read_count : Int) : Option AggOutput :=
  match resolveMetadata fsExists load metadata_file sample_id_df with
  | none => none
  | some metadata =>
    match processFiles metadata read_count ⟨[], []⟩ files with
    | none => none
    | some st =>
      let headers := mergedHeaders metadata
      match renderRows headers st.results with
      | none => none
      | some rows =>
        some ⟨osPathJoin kraken_dir "merged_kraken1.tsv",
              pyJoin "\t" headers :: rows,
              osPathJoin kraken_dir "sample_ids.csv",
              "Sample_IDs" :: st.sampleid⟩

/-- The parsed rows of one report file paired with its extracted sample
id, `none` when some line fails to parse. -/
def parsedLinesOf (e : String) : List String → Option (List (String × ParsedRow))
  | [] => some []
  | l :: ls =>
    match parseLine l, parsedLinesOf e ls with
    | some pr, some rest => some ((e, pr) :: rest)
    | _, _ => none

/-- The full stream of (extracted sample id, parsed row) pairs read by
the aggregation, in encounter order over the report files. -/
def rowsOfFiles : List FileEntry → Option (List (String × ParsedRow))
  | [] => some []
  | f :: fs =>
    if pyEndsWith f.name "_report.txt" then
      match parsedLinesOf (extractedPart f.name) f.lines, rowsOfFiles fs with
      | some rs, some rest => some (rs ++ rest)
      | _, _ => none
    else rowsOfFiles fs

/-- Modelled from the spec: the collaborator tools `run_trimmomatic`,
`run_bowtie2` and `run_kraken2` live in sibling modules that are not part
of this source file; per the spec they are opaque black boxes that accept
paths and parameters and either produce output paths or raise. They are
passed to `process_sample` as oracles that return `Except` (an exception
carries its message). -/
structure Collaborators where
  run_trimmomatic : String → String → String → String → Nat →
    Except String (String × String)
  run_bowtie2 : String → String → String → String → String → Nat →
    Except String (String × String)
  run_kraken2 : String → String → String → String → String → Nat →
    Except String String

/-- An observable collaborator invocation made by `process_sample`. -/
inductive ToolCall where
  | trim
  | bowtie
  | kraken
deriving Repr, DecidableEq

/-- The `try` body of `process_sample` (lines 13-31): either the
three-step pipeline or the precomputed-report branch. Returns the report
path or the raised exception, together with the list of collaborator
invocations actually made, in order. -/
def process_sample_body (C : Collaborators) (fsExists : String → Bool)
    (forward reverse base_name bowtie2_index kraken_db output_dir : String)
    (threads : Nat) (run_bowtie use_precomputed_reports : Bool) :
    Except String String × List ToolCall :=
  if !use_precomputed_reports then
    match C.run_trimmomatic forward reverse base_name output_dir threads with
    | .error e => (.error e, [.trim])
    | .ok (trimmed_forward, trimmed_reverse) =>
      if run_bowtie then
        match C.run_bowtie2 trimmed_forward trimmed_reverse base_name
              bowtie2_index output_dir threads with
        | .error e => (.error e, [.trim, .bowtie])
        | .ok (unmapped_r1, unmapped_r2) =>
          match C.run_kraken2 unmapped_r1 unmapped_r2 base_name kraken_db
                output_dir threads with
          | .error e => (.error e, [.trim, .bowtie, .kraken])
          | .ok kraken_report => (.ok kraken_report, [.trim, .bowtie, .kraken])
      else
        match C.run_kraken2 trimmed_forward trimmed_reverse base_name kraken_db
              output_dir threads with
        | .error e => (.error e, [.trim, .kraken])
        | .ok kraken_report => (.ok kraken_report, [.trim, .kraken])
  else
    let kraken_report := osPathJoin output_dir (base_name ++ "_report.txt")
    if !(fsExists kraken_report) then
      (.error ("Precomputed Kraken2 report not found: " ++ kraken_report), [])
    else (.ok kraken_report, [])

/-- `process_sample` (lines 11-35): the `try` body wrapped by the
top-level `except` that prints `Error processing sample {base_name}: {e}`
and returns `None`. The result is the returned value, the collaborator
calls made, and the lines printed. -/
def process_sample (C : Collaborators) (fsExists : String → Bool)
    (forward reverse base_name bowtie2_index kraken_db output_dir : String)
    (threads : Nat) (run_bowtie use_precomputed_reports : Bool) :
    Option String × List ToolCall × List String :=
  match process_sample_body C fsExists forward reverse base_name bowtie2_index
        kraken_db output_dir threads run_bowtie use_precomputed_reports with
  | (.ok r, calls) => (some r, calls, [])
  | (.error e, calls) =>
    (none, calls, ["Error processing sample " ++ base_name ++ ": " ++ e])

/-- Fixture: a filesystem on which every path exists. -/
def wFsTrue : String → Bool := fun _ => true

/-- Fixture: a filesystem on which no path exists. -/
def wFsFalse : String → Bool := fun _ => false

/-- Fixture: a two-column metadata table with samples `S1` and `S2`. -/
def wMd : Metadata := ⟨["id", "note"], [["S1", "n1"], ["S2", "n2"]]⟩

/-- Fixture: a `pd.read_csv` oracle that always yields `wMd`. -/
def wLoad : String → Metadata := fun _ => wMd

/-- Fixture: a directory with two report files (the first holding one
species row passing a threshold of 30 and one genus row) and one
non-report entry that must be skipped. -/
def wFiles : List FileEntry :=
  [⟨"S1_report.txt", ["12.5\t100\t50\tS\t9606\tHomo sapiens",
                      "3.1\t20\t10\tG\t9605\tHomo"]⟩,
   ⟨"notes.txt", ["junk"]⟩,
   ⟨"S2_report.txt", ["1.0\t5\t5\tS\t9606\tHomo sapiens"]⟩]

/-- Fixture: the row stream of `wFiles` (what `rowsOfFiles` yields). -/
def wRows : List (String × ParsedRow) :=
  [("S1", ⟨"12.5", "100", 50, "S", "9606", "Homo sapiens"⟩),
   ("S1", ⟨"3.1", "20", 10, "G", "9605", "Homo"⟩),
   ("S2", ⟨"1.0", "5", 5, "S", "9606", "Homo sapiens"⟩)]

/-- Fixture: the output of aggregating `wFiles` against `wMd` with
threshold 30. -/
def wOut : AggOutput :=
  ⟨"kd/merged_kraken1.tsv",
   ["Perc_frag_cover\tNr_frag_cover\tNr_frag_direct_at_taxon\tRank_code\tNCBI_ID\tScientific_name\tSampleID\tnote",
    "12.5\t100\t50\tS\t9606\tHomo sapiens\tS1\tn1"],
   "kd/sample_ids.csv",
   ["Sample_IDs", "S1", "S1", "S2"]⟩

/-- Fixture: collaborators that always succeed. -/
def wCollab : Collaborators :=
  ⟨fun _ _ _ _ _ => .ok ("tf", "tr"),
   fun _ _ _ _ _ _ => .ok ("u1", "u2"),
   fun _ _ _ _ _ _ => .ok "rep"⟩

/-- Fixture: collaborators whose trimming step raises. -/
def wCollabFail : Collaborators :=
  ⟨fun _ _ _ _ _ => .error "boom",
   fun _ _ _ _ _ _ => .error "boom",
   fun _ _ _ _ _ _ => .error "boom"⟩

/-- Fixture for the C7 counterexample: metadata whose `note` value for
sample `S1` contains an embedded tab character. -/
def c7md : Metadata := ⟨["id", "note"], [["S1", "a\tb"]]⟩

/-- Fixture for the C7 counterexample: one report file with one species
row for sample `S1`. -/
def c7files : List FileEntry :=
  [⟨"S1_report.txt", ["12.5\t100\t50\tS\t9606\tHomo sapiens"]⟩]

/-- Fixture: the aggregated record of the first `wFiles` row joined with
its `wMd` metadata row (all values tab-free). -/
def wRec : RecordDict :=
  mkRec wMd "S1" ⟨"12.5", "100", 50, "S", "9606", "Homo sapiens"⟩

/-- Helper: how one loop iteration changes `aggregated_results`. -/
theorem stepLine_results (md : Metadata) (rc : Int) (e : String)
    (st : AggState) (pr : ParsedRow) :
    (stepLine md rc e st pr).results =
      if passesB md rc e pr then
        updAssoc st.results (e ++ pr.ncbi_ID) (mkRec md e pr)
      else st.results := by
  cases h1 : (pr.rank_code == "S") <;>
    cases h2 : decide (rc ≤ pr.nr_frag_direct_at_taxon) <;>
      cases h3 : mdHas md e <;>
        simp [stepLine, passesB, h1, h2, h3]

/-- Helper: every loop iteration appends exactly the extracted sample id
to the `sampleid` list, whatever the filter decides. -/
theorem stepLine_sampleid (md : Metadata) (rc : Int) (e : String)
    (st : AggState) (pr : ParsedRow) :
    (stepLine md rc e st pr).sampleid = st.sampleid ++ [e] := by
  cases h1 : (pr.rank_code == "S") <;>
    cases h2 : decide (rc ≤ pr.nr_frag_direct_at_taxon) <;>
      cases h3 : mdHas md e <;>
        simp [stepLine, h1, h2, h3]

/-- C1: a processed report row adds its aggregated record (under the key
`sample_id ++ taxon_id`) exactly when its rank code is `S`, its direct
fragment count is at least `read_count`, and its extracted sample id
occurs in the first metadata column; a row failing any of the three
conditions leaves the aggregated results unchanged. -/
theorem C1_record_built_iff (md : Metadata) (rc : Int) (e : String)
    (st : AggState) (pr : ParsedRow) :
    (stepLine md rc e st pr).results =
      if pr.rank_code == "S" &&
         decide (rc ≤ pr.nr_frag_direct_at_taxon) && mdHas md e then
        updAssoc st.results (e ++ pr.ncbi_ID) (mkRec md e pr)
      else st.results := by
  cases h1 : (pr.rank_code == "S") <;>
    cases h2 : decide (rc ≤ pr.nr_frag_direct_at_taxon) <;>
      cases h3 : mdHas md e <;>
        simp [stepLine, h1, h2, h3]

/-- C4: metadata resolution is first-match-wins: an existing (truthy)
metadata file path is loaded via `pd.read_csv`; failing that, a provided
in-memory table is used; failing both, the call returns `None` and no
aggregation output is produced. -/
theorem C4_metadata_resolution (fsE : String → Bool) (load : String → Metadata)
    (kd : String) (files : List FileEntry) (rc : Int) :
    (∀ (p : String) (df : Option Metadata), p ≠ "" → fsE p = true →
       (load p).columns.isEmpty = false →
       resolveMetadata fsE load (some p) df = some (load p))
    ∧ (∀ (p : String) (md : Metadata), (p = "" ∨ fsE p = false) →
       md.columns.isEmpty = false →
       resolveMetadata fsE load (some p) (some md) = some md)
    ∧ (∀ md : Metadata, md.columns.isEmpty = false →
       resolveMetadata fsE load none (some md) = some md)
    ∧ (∀ p : String, (p = "" ∨ fsE p = false) →
       resolveMetadata fsE load (some p) none = none)
    ∧ resolveMetadata fsE load none none = none
    ∧ (∀ (mf : Option String) (df : Option Metadata),
       resolveMetadata fsE load mf df = none →
       aggregate_kraken_results fsE load kd files mf df rc = none) := by
  refine ⟨?_, ?_, ?_, ?_, ?_, ?_⟩
  · intro p df hp hfs hcols
    simp [resolveMetadata, hp, hfs, hcols]
  · intro p md hp hcols
    rcases hp with hp | hp <;> simp [resolveMetadata, hp, hcols]
  · intro md hcols
    simp [resolveMetadata, hcols]
  · intro p hp
    rcases hp with hp | hp <;> simp [resolveMetadata, hp]
  · simp [resolveMetadata]
  · intro mf df h
    simp [aggregate_kraken_results, h]

/-- C4 witness: applying `C4_metadata_resolution` at concrete inputs. -/
theorem C4_witness :
    resolveMetadata wFsTrue wLoad (some "meta.csv") none = some (wLoad "meta.csv")
    ∧ resolveMetadata wFsFalse wLoad (some "meta.csv") (some wMd) = some wMd
    ∧ aggregate_kraken_results wFsFalse wLoad "kd" wFiles (some "meta.csv") none 0 = none :=
  ⟨(C4_metadata_resolution wFsTrue wLoad "kd" wFiles 0).1 "meta.csv"
      none (by decide) rfl rfl,
   (C4_metadata_resolution wFsFalse wLoad "kd" wFiles 0).2.1 "meta.csv"
      wMd (Or.inr rfl) rfl,
   (C4_metadata_resolution wFsFalse wLoad "kd" wFiles 0).2.2.2.2.2
      (some "meta.csv") none rfl⟩

/-- C8: with `use_precomputed_reports` set, `process_sample` returns the
path `<output_dir>/<base_name>_report.txt` without calling any
collaborator when that file exists, and returns `None` (logging the
missing-report error, still calling no collaborator) when it does not. -/
theorem C8_precomputed (C : Collaborators) (fsE : String → Bool)
    (f r b idx db od : String) (th : Nat) (rb : Bool) :
    (fsE (osPathJoin od (b ++ "_report.txt")) = true →
       process_sample C fsE f r b idx db od th rb true =
         (some (osPathJoin od (b ++ "_report.txt")), [], []))
    ∧ (fsE (osPathJoin od (b ++ "_report.txt")) = false →
       process_sample C fsE f r b idx db od th rb true =
         (none, [], ["Error processing sample " ++ b ++ ": " ++
           ("Precomputed Kraken2 report not found: " ++
             osPathJoin od (b ++ "_report.txt"))])) := by
  constructor
  · intro h
    simp [process_sample, process_sample_body, h]
  · intro h
    simp [process_sample, process_sample_body, h]

/-- C8 witness: applying `C8_precomputed` on both filesystems. -/
theorem C8_witness :
    process_sample wCollab wFsTrue "f" "r" "S1" "idx" "db" "out" 4 false true =
      (some "out/S1_report.txt", [], [])
    ∧ process_sample wCollab wFsFalse "f" "r" "S1" "idx" "db" "out" 4 false true =
      (none, [], ["Error processing sample S1: Precomputed Kraken2 report not found: out/S1_report.txt"]) :=
  ⟨(C8_precomputed wCollab wFsTrue "f" "r" "S1" "idx" "db" "out" 4 false).1 rfl,
   (C8_precomputed wCollab wFsFalse "f" "r" "S1" "idx" "db" "out" 4 false).2 rfl⟩

/-- C9: `process_sample` is total; whenever its `try` body raises an
exception `e`, the exception is converted to a `None` result together
with the log line `Error processing sample <base_name>: <e>`, and a
successful body yields the report path with nothing logged. -/
theorem C9_exceptions_caught (C : Collaborators) (fsE : String → Bool)
    (f r b idx db od : String) (th : Nat) (rb upr : Bool) :
    (∀ (e : String) (calls : List ToolCall),
       process_sample_body C fsE f r b idx db od th rb upr = (.error e, calls) →
       process_sample C fsE f r b idx db od th rb upr =
         (none, calls, ["Error processing sample " ++ b ++ ": " ++ e]))
    ∧ (∀ (p : String) (calls : List ToolCall),
       process_sample_body C fsE f r b idx db od th rb upr = (.ok p, calls) →
       process_sample C fsE f r b idx db od th rb upr = (some p, calls, [])) := by
  constructor
  · intro e calls h
    simp [process_sample, h]
  · intro p calls h
    simp [process_sample, h]

/-- C9 witness: a failing trim step is caught and logged. -/
theorem C9_witness :
    process_sample wCollabFail wFsTrue "f" "r" "S1" "idx" "db" "out" 4 false false =
      (none, [.trim], ["Error processing sample S1: boom"]) :=
  (C9_exceptions_caught wCollabFail wFsTrue "f" "r" "S1" "idx" "db" "out" 4
    false false).1 "boom" [.trim] rfl

/-- Helper: after an assignment, looking the key up yields the assigned
record. -/
theorem lookupA_updAssoc_self (m : List (String × RecordDict))
    (k : String) (v : RecordDict) :
    lookupA (updAssoc m k v) k = some v := by
  induction m with
  | nil => simp [updAssoc, lookupA, List.find?]
  | cons p m ih =>
    by_cases h : (p.1 == k) = true
    · simp [updAssoc, h, lookupA, List.find?]
    · simp only [updAssoc, h, Bool.false_eq_true, if_false]
      simpa [lookupA, List.find?, h] using ih

/-- Helper: an assignment leaves every other key untouched. -/
theorem lookupA_updAssoc_ne (m : List (String × RecordDict))
    (k k' : String) (v : RecordDict) (hne : (k == k') = false) :
    lookupA (updAssoc m k v) k' = lookupA m k' := by
  induction m with
  | nil => simp [updAssoc, lookupA, List.find?, hne]
  | cons p m ih =>
    by_cases h : (p.1 == k) = true
    · have hp : (p.1 == k') = false := by
        have : p.1 = k := by simpa using h
        simpa [this] using hne
      simp [updAssoc, h, lookupA, List.find?, hne, hp]
    · simp only [updAssoc, h, Bool.false_eq_true, if_false]
      by_cases hp : (p.1 == k') = true
      · simp [lookupA, List.find?, hp]
      · simpa [lookupA, List.find?, hp] using ih

/-- Helper: the number of bindings of the assigned key after an
assignment: it becomes 1 when the key was absent and is otherwise
preserved. -/
theorem keyCount_updAssoc_self (m : List (String × RecordDict))
    (k : String) (v : RecordDict) :
    keyCount (updAssoc m k v) k =
      if keyCount m k = 0 then 1 else keyCount m k := by
  induction m with
  | nil => simp [updAssoc, keyCount]
  | cons p m ih =>
    by_cases h : (p.1 == k) = true
    · simp only [updAssoc, h, if_true]
      have h1 : keyCount ((k, v) :: m) k = keyCount m k + 1 := by
        simp [keyCount, List.filter_cons, Nat.add_comm]
      have h2 : keyCount (p :: m) k = keyCount m k + 1 := by
        simp [keyCount, List.filter_cons, h, Nat.add_comm]
      rw [h1, h2, if_neg (Nat.succ_ne_zero _)]
    · simp only [updAssoc, h, Bool.false_eq_true, if_false]
      have h1 : keyCount (p :: updAssoc m k v) k = keyCount (updAssoc m k v) k := by
        simp [keyCount, List.filter_cons, h]
      have h2 : keyCount (p :: m) k = keyCount m k := by
        simp [keyCount, List.filter_cons, h]
      rw [h1, h2, ih]

/-- Helper: the number of bindings of any other key is untouched by an
assignment. -/
theorem keyCount_updAssoc_ne (m : List (String × RecordDict))
    (k k' : String) (v : RecordDict) (hne : (k == k') = false) :
    keyCount (updAssoc m k v) k' = keyCount m k' := by
  induction m with
  | nil => simp [updAssoc, keyCount, List.filter, hne]
  | cons p m ih =>
    by_cases h : (p.1 == k) = true
    · have hp : (p.1 == k') = false := by
        have : p.1 = k := by simpa using h
        simpa [this] using hne
      simp [updAssoc, h, keyCount, List.filter_cons, hne, hp]
    · simp only [updAssoc, h, Bool.false_eq_true, if_false]
      by_cases hp : (p.1 == k') = true
      · simp [keyCount, List.filter_cons, hp] at ih ⊢
        omega
      · simpa [keyCount, List.filter_cons, hp] using ih

/-- Helper: the lookup after the whole row stream is the record of the
last processed row that passed the filter and produced the key, falling
back to whatever the initial state held. -/
theorem lookupA_processRows (md : Metadata) (rc : Int)
    (rows : List (String × ParsedRow)) (st : AggState) (k : String) :
    lookupA (processRows md rc st rows).results k =
      match (rows.filter (fun p =>
          passesB md rc p.1 p.2 && (p.1 ++ p.2.ncbi_ID == k))).getLast? with
      | some p => some (mkRec md p.1 p.2)
      | none => lookupA st.results k := by
  induction rows generalizing st with
  | nil => simp [processRows]
  | cons r rows ih =>
    have hstep : processRows md rc st (r :: rows) =
        processRows md rc (stepLine md rc r.1 st r.2) rows := rfl
    rw [hstep, ih]
    by_cases hpass : passesB md rc r.1 r.2 = true
    · by_cases hkey : (r.1 ++ r.2.ncbi_ID == k) = true
      · have hfilter : (r :: rows).filter (fun p =>
            passesB md rc p.1 p.2 && (p.1 ++ p.2.ncbi_ID == k)) =
            r :: rows.filter (fun p =>
              passesB md rc p.1 p.2 && (p.1 ++ p.2.ncbi_ID == k)) := by
          simp [List.filter_cons, hpass, hkey]
        rw [hfilter]
        cases hrest : rows.filter (fun p =>
            passesB md rc p.1 p.2 && (p.1 ++ p.2.ncbi_ID == k)) with
        | nil =>
          have hk : r.1 ++ r.2.ncbi_ID = k := by simpa using hkey
          simp only [List.getLast?_singleton]
          rw [stepLine_results, if_pos hpass, hk]
          simp [lookupA_updAssoc_self]
        | cons q qs =>
          rw [List.getLast?_cons_cons]
          cases hql : (q :: qs).getLast? with
          | none => simp at hql
          | some z => rfl
      · have hfilter : (r :: rows).filter (fun p =>
            passesB md rc p.1 p.2 && (p.1 ++ p.2.ncbi_ID == k)) =
            rows.filter (fun p =>
              passesB md rc p.1 p.2 && (p.1 ++ p.2.ncbi_ID == k)) := by
          simp [List.filter_cons, hpass, hkey]
        rw [hfilter]
        cases hrest : rows.filter (fun p =>
            passesB md rc p.1 p.2 && (p.1 ++ p.2.ncbi_ID == k)) with
        | nil =>
          rw [stepLine_results, if_pos hpass]
          simp [lookupA_updAssoc_ne _ _ _ _ (by simpa using hkey)]
        | cons q qs =>
          cases hql : (q :: qs).getLast? with
          | none => simp at hql
          | some z => rfl
    · have hfilter : (r :: rows).filter (fun p =>
          passesB md rc p.1 p.2 && (p.1 ++ p.2.ncbi_ID == k)) =
          rows.filter (fun p =>
            passesB md rc p.1 p.2 && (p.1 ++ p.2.ncbi_ID == k)) := by
        simp [List.filter_cons, hpass]
      rw [hfilter]
      cases hrest : rows.filter (fun p =>
          passesB md rc p.1 p.2 && (p.1 ++ p.2.ncbi_ID == k)) with
      | nil =>
        rw [stepLine_results, if_neg (by simp [hpass])]
      | cons q qs =>
        cases hql : (q :: qs).getLast? with
        | none => simp at hql
        | some z => rfl

/-- Helper: the binding count of a key after the whole row stream, from
an arbitrary initial state. -/
theorem keyCount_processRows (md : Metadata) (rc : Int)
    (rows : List (String × ParsedRow)) (st : AggState) (k : String) :
    keyCount (processRows md rc st rows).results k =
      if rows.any (fun p =>
          passesB md rc p.1 p.2 && (p.1 ++ p.2.ncbi_ID == k)) then
        (if keyCount st.results k = 0 then 1 else keyCount st.results k)
      else keyCount st.results k := by
  induction rows generalizing st with
  | nil => simp [processRows]
  | cons r rows ih =>
    have hstep : processRows md rc st (r :: rows) =
        processRows md rc (stepLine md rc r.1 st r.2) rows := rfl
    rw [hstep, ih]
    by_cases hpass : passesB md rc r.1 r.2 = true
    · by_cases hkey : (r.1 ++ r.2.ncbi_ID == k) = true
      · have hk : r.1 ++ r.2.ncbi_ID = k := by simpa using hkey
        have hres : keyCount (stepLine md rc r.1 st r.2).results k =
            if keyCount st.results k = 0 then 1 else keyCount st.results k := by
          rw [stepLine_results, if_pos hpass, hk, keyCount_updAssoc_self]
        rw [hres]
        simp only [List.any_cons, hpass, hkey, Bool.and_self, Bool.true_or,
          if_true]
        split_ifs <;> omega
      · have hres : keyCount (stepLine md rc r.1 st r.2).results k =
            keyCount st.results k := by
          rw [stepLine_results, if_pos hpass,
            keyCount_updAssoc_ne _ _ _ _ (by simpa using hkey)]
        rw [hres]
        have hor : (passesB md rc r.1 r.2 && (r.1 ++ r.2.ncbi_ID == k)) = false := by
          simp [hkey]
        rw [List.any_cons, hor, Bool.false_or]
    · have hres : keyCount (stepLine md rc r.1 st r.2).results k =
          keyCount st.results k := by
        rw [stepLine_results, if_neg (by simp [hpass])]
      rw [hres]
      have hor : (passesB md rc r.1 r.2 && (r.1 ++ r.2.ncbi_ID == k)) = false := by
        simp [hpass]
      rw [List.any_cons, hor, Bool.false_or]

/-- C2: records are keyed by the delimiter-free concatenation of sample
id and taxon id; over any processed row stream (starting from the empty
dict) the final results hold exactly one record for a key exactly when
some passing row produced it, and that record carries the values of the
last such row. -/
theorem C2_concat_key_last_wins (md : Metadata) (rc : Int)
    (rows : List (String × ParsedRow)) (k : String) :
    lookupA (processRows md rc ⟨[], []⟩ rows).results k =
      ((rows.filter (fun p =>
          passesB md rc p.1 p.2 && (p.1 ++ p.2.ncbi_ID == k))).getLast?).map
        (fun p => mkRec md p.1 p.2)
    ∧ keyCount (processRows md rc ⟨[], []⟩ rows).results k =
      (if rows.any (fun p =>
          passesB md rc p.1 p.2 && (p.1 ++ p.2.ncbi_ID == k)) then 1 else 0) := by
  constructor
  · rw [lookupA_processRows]
    cases (rows.filter (fun p =>
        passesB md rc p.1 p.2 && (p.1 ++ p.2.ncbi_ID == k))).getLast? with
    | none => simp [lookupA]
    | some p => simp
  · rw [keyCount_processRows]
    simp [keyCount]

/-- Helper: processing a concatenated row stream is processing the two
parts in sequence. -/
theorem processRows_append (md : Metadata) (rc : Int) (st : AggState)
    (rs1 rs2 : List (String × ParsedRow)) :
    processRows md rc st (rs1 ++ rs2) =
      processRows md rc (processRows md rc st rs1) rs2 := by
  induction rs1 generalizing st with
  | nil => rfl
  | cons r rs1 ih => simpa [processRows] using ih (stepLine md rc r.1 st r.2)

/-- Helper: the per-file line loop equals parsing every line and folding
`stepLine` over the parsed rows. -/
theorem processLines_eq (md : Metadata) (rc : Int) (e : String)
    (st : AggState) (lines : List String) :
    processLines md rc e st lines =
      (parsedLinesOf e lines).map (fun rs => processRows md rc st rs) := by
  induction lines generalizing st with
  | nil => rfl
  | cons l ls ih =>
    cases hp : parseLine l with
    | none => simp [processLines, hp, parsedLinesOf]
    | some pr =>
      have hstep : processLines md rc e st (l :: ls) =
          processLines md rc e (stepLine md rc e st pr) ls := by
        simp [processLines, hp]
      rw [hstep, ih]
      cases hrest : parsedLinesOf e ls with
      | none => simp [parsedLinesOf, hp, hrest]
      | some rs => simp [parsedLinesOf, hp, hrest, processRows]

/-- Helper: the directory loop equals flattening the report files into
one row stream and folding over it. -/
theorem processFiles_eq (md : Metadata) (rc : Int) (st : AggState)
    (files : List FileEntry) :
    processFiles md rc st files =
      (rowsOfFiles files).map (fun rs => processRows md rc st rs) := by
  induction files generalizing st with
  | nil => rfl
  | cons f fs ih =>
    by_cases hend : pyEndsWith f.name "_report.txt" = true
    · cases hp : parsedLinesOf (extractedPart f.name) f.lines with
      | none =>
        simp [processFiles, hend, processLines_eq, hp, rowsOfFiles]
      | some rs =>
        cases hrest : rowsOfFiles fs with
        | none =>
          simp [processFiles, hend, processLines_eq, hp, rowsOfFiles, hrest, ih]
        | some rest =>
          simp [processFiles, hend, processLines_eq, hp, rowsOfFiles, hrest, ih,
            processRows_append]
    · simp [processFiles, hend, rowsOfFiles, ih]

/-- Helper: the sample-id list after the whole stream is the initial list
followed by one entry per row, in encounter order. -/
theorem processRows_sampleid (md : Metadata) (rc : Int) (st : AggState)
    (rows : List (String × ParsedRow)) :
    (processRows md rc st rows).sampleid = st.sampleid ++ rows.map Prod.fst := by
  induction rows generalizing st with
  | nil => simp [processRows]
  | cons r rows ih =>
    have : processRows md rc st (r :: rows) =
        processRows md rc (stepLine md rc r.1 st r.2) rows := rfl
    rw [this, ih, stepLine_sampleid]
    simp

/-- Helper: a stream in which no row passes the filter leaves the
aggregated results untouched. -/
theorem processRows_results_of_none_pass (md : Metadata) (rc : Int)
    (st : AggState) (rows : List (String × ParsedRow))
    (h : ∀ p ∈ rows, passesB md rc p.1 p.2 = false) :
    (processRows md rc st rows).results = st.results := by
  induction rows generalizing st with
  | nil => rfl
  | cons r rows ih =>
    have hstep : processRows md rc st (r :: rows) =
        processRows md rc (stepLine md rc r.1 st r.2) rows := rfl
    rw [hstep, ih _ (fun p hp => h p (List.mem_cons_of_mem r hp)),
      stepLine_results, if_neg]
    simp [h r (List.mem_cons_self r rows)]

/-- Helper: the shape of `aggregate_kraken_results` once the metadata
source has resolved. -/
theorem aggregate_resolved (fsE : String → Bool) (load : String → Metadata)
    (kd : String) (files : List FileEntry) (mf : Option String)
    (df : Option Metadata) (rc : Int) (md : Metadata)
    (hmd : resolveMetadata fsE load mf df = some md) :
    aggregate_kraken_results fsE load kd files mf df rc =
      match processFiles md rc ⟨[], []⟩ files with
      | none => none
      | some st =>
        match renderRows (mergedHeaders md) st.results with
        | none => none
        | some rows =>
          some ⟨osPathJoin kd "merged_kraken1.tsv",
                pyJoin "\t" (mergedHeaders md) :: rows,
                osPathJoin kd "sample_ids.csv",
                "Sample_IDs" :: st.sampleid⟩ := by
  unfold aggregate_kraken_results
  rw [hmd]

/-- C5: on every successful aggregation the sample-id file holds the
header `Sample_IDs` followed by one entry (the extracted sample id) per
row of every scanned report file — rows failing the filter included — in
encounter order and without deduplication. -/
theorem C5_sampleid_list (fsE : String → Bool) (load : String → Metadata)
    (kd : String) (files : List FileEntry) (mf : Option String)
    (df : Option Metadata) (rc : Int) (out : AggOutput)
    (rows : List (String × ParsedRow))
    (hrun : aggregate_kraken_results fsE load kd files mf df rc = some out)
    (hrows : rowsOfFiles files = some rows) :
    out.sampleid_lines = "Sample_IDs" :: rows.map Prod.fst := by
  cases hmd : resolveMetadata fsE load mf df with
  | none =>
    unfold aggregate_kraken_results at hrun
    rw [hmd] at hrun
    exact absurd hrun (by simp)
  | some md =>
    rw [aggregate_resolved fsE load kd files mf df rc md hmd] at hrun
    have hpf : processFiles md rc ⟨[], []⟩ files =
        some (processRows md rc ⟨[], []⟩ rows) := by
      rw [processFiles_eq, hrows]
      rfl
    rw [hpf] at hrun
    dsimp only [] at hrun
    cases hmapm : renderRows (mergedHeaders md)
        (processRows md rc ⟨[], []⟩ rows).results with
    | none => rw [hmapm] at hrun; exact absurd hrun (by simp)
    | some rowsR =>
      rw [hmapm] at hrun
      simp only [Option.some.injEq] at hrun
      rw [← hrun]
      simp only [processRows_sampleid]
      rfl

/-- C5 witness: applying `C5_sampleid_list` to the fixture run, whose
sample-id list keeps the duplicate `S1` and the filtered-out rows. -/
theorem C5_witness : wOut.sampleid_lines = "Sample_IDs" :: wRows.map Prod.fst :=
  C5_sampleid_list wFsFalse wLoad "kd" wFiles none (some wMd) 30 wOut wRows
    rfl rfl

/-- C6: on every successful aggregation the first line of the merged
table is exactly the six fixed report-field names, then `SampleID`, then
the metadata columns except the first, joined by tabs. -/
theorem C6_header (fsE : String → Bool) (load : String → Metadata)
    (kd : String) (files : List FileEntry) (mf : Option String)
    (df : Option Metadata) (rc : Int) (md : Metadata) (out : AggOutput)
    (hmd : resolveMetadata fsE load mf df = some md)
    (hrun : aggregate_kraken_results fsE load kd files mf df rc = some out) :
    out.merged_lines.head? = some (pyJoin "\t"
      (["Perc_frag_cover", "Nr_frag_cover", "Nr_frag_direct_at_taxon",
        "Rank_code", "NCBI_ID", "Scientific_name"] ++ ["SampleID"] ++
        md.columns.drop 1)) := by
  rw [aggregate_resolved fsE load kd files mf df rc md hmd] at hrun
  cases hpf : processFiles md rc ⟨[], []⟩ files with
  | none => rw [hpf] at hrun; exact absurd hrun (by simp)
  | some st =>
    rw [hpf] at hrun
    dsimp only [] at hrun
    cases hmapm : renderRows (mergedHeaders md) st.results with
    | none => rw [hmapm] at hrun; exact absurd hrun (by simp)
    | some rowsR =>
      rw [hmapm] at hrun
      simp only [Option.some.injEq] at hrun
      rw [← hrun]
      rfl

/-- C6 witness: applying `C6_header` to the fixture run. -/
theorem C6_witness : wOut.merged_lines.head? = some (pyJoin "\t"
    (["Perc_frag_cover", "Nr_frag_cover", "Nr_frag_direct_at_taxon",
      "Rank_code", "NCBI_ID", "Scientific_name"] ++ ["SampleID"] ++
      wMd.columns.drop 1)) :=
  C6_header wFsFalse wLoad "kd" wFiles none (some wMd) 30 wMd wOut rfl rfl

/-- C10: with a usable metadata source, when no scanned row passes the
filter (in particular when there are no report files at all) the
aggregation still succeeds: it writes a merged table holding only the
header line, writes the (possibly empty) sample-id list, and returns the
merged table path. -/
theorem C10_empty_success (fsE : String → Bool) (load : String → Metadata)
    (kd : String) (files : List FileEntry) (mf : Option String)
    (df : Option Metadata) (rc : Int) (md : Metadata)
    (rows : List (String × ParsedRow))
    (hmd : resolveMetadata fsE load mf df = some md)
    (hrows : rowsOfFiles files = some rows)
    (hfail : ∀ p ∈ rows, passesB md rc p.1 p.2 = false) :
    aggregate_kraken_results fsE load kd files mf df rc =
      some ⟨osPathJoin kd "merged_kraken1.tsv",
            [pyJoin "\t" (mergedHeaders md)],
            osPathJoin kd "sample_ids.csv",
            "Sample_IDs" :: rows.map Prod.fst⟩ := by
  have hpf : processFiles md rc ⟨[], []⟩ files =
      some (processRows md rc ⟨[], []⟩ rows) := by
    rw [processFiles_eq, hrows]
    rfl
  have hres : (processRows md rc ⟨[], []⟩ rows).results = [] :=
    processRows_results_of_none_pass md rc ⟨[], []⟩ rows hfail
  have hsid : (processRows md rc ⟨[], []⟩ rows).sampleid = rows.map Prod.fst := by
    rw [processRows_sampleid]
    rfl
  rw [aggregate_resolved fsE load kd files mf df rc md hmd, hpf]
  dsimp only []
  rw [show renderRows (mergedHeaders md)
        (processRows md rc ⟨[], []⟩ rows).results = some [] by
      rw [hres]; rfl]
  rw [hsid]

/-- C10 witness: an empty report directory aggregates to a header-only
merged table and a header-only sample-id file. -/
theorem C10_witness :
    aggregate_kraken_results wFsFalse wLoad "kd" [] none (some wMd) 0 =
      some ⟨osPathJoin "kd" "merged_kraken1.tsv",
            [pyJoin "\t" (mergedHeaders wMd)],
            osPathJoin "kd" "sample_ids.csv",
            ["Sample_IDs"]⟩ :=
  C10_empty_success wFsFalse wLoad "kd" [] none (some wMd) 0 wMd []
    rfl rfl (by simp)

/-- Helper: a split always yields at least one chunk. -/
theorem splitChars_ne_nil (sep : Char) (cs : List Char) :
    splitChars sep cs ≠ [] := by
  induction cs with
  | nil => simp [splitChars]
  | cons c cs ih =>
    simp only [splitChars]
    cases h : splitChars sep cs with
    | nil => simp
    | cons w ws => by_cases hc : c = sep <;> simp [hc]

/-- Helper: joining the chunks of a split recovers the original
characters. -/
theorem joinChars_splitChars (sep : Char) (cs : List Char) :
    joinChars sep (splitChars sep cs) = cs := by
  induction cs with
  | nil => rfl
  | cons c cs ih =>
    simp only [splitChars]
    cases h : splitChars sep cs with
    | nil => exact absurd h (splitChars_ne_nil sep cs)
    | cons w ws =>
      rw [h] at ih
      by_cases hc : c = sep
      · subst hc
        simpa [joinChars] using ih
      · simp only [hc, if_false]
        cases ws with
        | nil =>
          simp only [joinChars] at ih ⊢
          rw [ih]
        | cons w2 ws2 =>
          simp only [joinChars] at ih ⊢
          rw [← ih]
          simp

/-- Helper: splitting distributes over an occurrence of the separator. -/
theorem splitChars_append (sep : Char) (xs ys : List Char) :
    splitChars sep (xs ++ sep :: ys) =
      splitChars sep xs ++ splitChars sep ys := by
  induction xs with
  | nil =>
    simp only [List.nil_append, splitChars]
    cases h : splitChars sep ys with
    | nil => exact absurd h (splitChars_ne_nil sep ys)
    | cons w ws => simp [splitChars]
  | cons x xs ih =>
    cases h : splitChars sep xs with
    | nil => exact absurd h (splitChars_ne_nil sep xs)
    | cons w ws =>
      have e1 : splitChars sep (x :: xs ++ sep :: ys) =
          match splitChars sep (xs ++ sep :: ys) with
          | [] => [[]]
          | q :: qs => if x = sep then [] :: q :: qs else (x :: q) :: qs := rfl
      rw [e1, ih, h]
      have e2 : splitChars sep (x :: xs) =
          match splitChars sep xs with
          | [] => [[]]
          | q :: qs => if x = sep then [] :: q :: qs else (x :: q) :: qs := rfl
      rw [e2, h]
      by_cases hx : x = sep <;> simp [hx]

/-- Helper: a separator-free character list splits into itself alone. -/
theorem splitChars_of_not_mem (sep : Char) (ys : List Char) (h : sep ∉ ys) :
    splitChars sep ys = [ys] := by
  induction ys with
  | nil => rfl
  | cons y ys ih =>
    have hy : y ≠ sep := fun hy => h (hy ▸ List.mem_cons_self y ys)
    have hys : sep ∉ ys := fun hm => h (List.mem_cons_of_mem y hm)
    simp [splitChars, ih hys, hy]

/-- Helper: splitting a join of separator-free chunks recovers the
chunks. -/
theorem splitChars_joinChars (sep : Char) (ws : List (List Char))
    (hne : ws ≠ []) (h : ∀ w ∈ ws, sep ∉ w) :
    splitChars sep (joinChars sep ws) = ws := by
  induction ws with
  | nil => exact absurd rfl hne
  | cons w ws ih =>
    cases ws with
    | nil =>
      simpa [joinChars] using
        splitChars_of_not_mem sep w (h w (List.mem_cons_self w []))
    | cons w2 ws2 =>
      have hj : joinChars sep (w :: w2 :: ws2) =
          w ++ sep :: joinChars sep (w2 :: ws2) := rfl
      rw [hj, splitChars_append,
        splitChars_of_not_mem sep w (h w (List.mem_cons_self w _)),
        ih (by simp) (fun x hx => h x (List.mem_cons_of_mem w hx))]
      rfl

/-- Helper: the characters of a `pyJoin` with a one-character separator. -/
theorem data_pyJoin (sep : String) (c : Char) (hsep : sep.data = [c])
    (xs : List String) :
    (pyJoin sep xs).data = joinChars c (xs.map String.data) := by
  induction xs with
  | nil => rfl
  | cons x xs ih =>
    cases xs with
    | nil => rfl
    | cons y ys =>
      have hj : pyJoin sep (x :: y :: ys) = x ++ sep ++ pyJoin sep (y :: ys) := rfl
      rw [hj, String.data_append, String.data_append, ih, hsep]
      simp [joinChars]

/-- Helper: splitting a tab-join of tab-free values recovers the values
(Python `"\t".join(vals).split('\t') == vals` for nonempty `vals` with
tab-free entries). -/
theorem pySplit_pyJoin (sep : String) (c : Char) (hsep : sep.data = [c])
    (xs : List String) (hne : xs ≠ []) (hfree : ∀ x ∈ xs, c ∉ x.data) :
    pySplit c (pyJoin sep xs) = xs := by
  unfold pySplit
  rw [data_pyJoin sep c hsep xs,
    splitChars_joinChars c (xs.map String.data) (by simpa using hne)
      (by simpa using hfree)]
  rw [List.map_map]
  exact List.map_id xs

/-- Helper: for a file name ending in `_report.txt`, the extracted part
is exactly the name with that suffix removed. -/
theorem extractedPart_append_suffix (name : String)
    (h : pyEndsWith name "_report.txt" = true) :
    extractedPart name ++ "_report.txt" = name := by
  have hs : ("_report.txt" : String).data <:+ name.data :=
    List.isSuffixOf_iff_suffix.mp h
  obtain ⟨t, ht⟩ := hs
  have hdata : ("_report.txt" : String).data =
      '_' :: ("report.txt" : String).data := by decide
  have hfree : '_' ∉ ("report.txt" : String).data := by decide
  have hname : name.data = t ++ '_' :: ("report.txt" : String).data := by
    rw [← ht, hdata]
  have hsplit : pySplit '_' name = (splitChars '_' t).map
      (fun cs => (⟨cs⟩ : String)) ++ [("report.txt" : String)] := by
    unfold pySplit
    rw [hname, splitChars_append, splitChars_of_not_mem '_' _ hfree]
    simp
  have hdrop : (pySplit '_' name).dropLast = (splitChars '_' t).map
      (fun cs => (⟨cs⟩ : String)) := by
    rw [hsplit, List.dropLast_concat]
  have hjoin : (extractedPart name).data = t := by
    unfold extractedPart
    rw [hdrop, data_pyJoin "_" '_' (by decide) _, List.map_map]
    have hmap : (splitChars '_' t).map (String.data ∘ fun cs => (⟨cs⟩ : String)) =
        splitChars '_' t := List.map_id (splitChars '_' t)
    rw [hmap, joinChars_splitChars]
  apply String.ext
  rw [String.data_append, hjoin, hname, hdata]

/-- C3: the directory scan processes exactly the entries whose name ends
with `_report.txt` (all others leave the state untouched); for a
processed entry the sample id is derived by splitting the name on `_`
and rejoining all segments but the last with `_`, which equals the name
with the trailing `_report.txt` stripped. -/
theorem C3_report_files_and_derivation (md : Metadata) (rc : Int)
    (st : AggState) (f : FileEntry) (fs : List FileEntry) :
    (pyEndsWith f.name "_report.txt" = false →
       processFiles md rc st (f :: fs) = processFiles md rc st fs)
    ∧ (pyEndsWith f.name "_report.txt" = true →
       processFiles md rc st (f :: fs) =
         match processLines md rc (extractedPart f.name) st f.lines with
         | none => none
         | some st2 => processFiles md rc st2 fs)
    ∧ (pyEndsWith f.name "_report.txt" = true →
       extractedPart f.name ++ "_report.txt" = f.name) := by
  refine ⟨?_, ?_, ?_⟩
  · intro h
    simp [processFiles, h]
  · intro h
    simp [processFiles, h]
  · intro h
    exact extractedPart_append_suffix f.name h

/-- C3 witness: applying `C3_report_files_and_derivation` to a skipped
non-report entry and to a report name with an underscore in its sample
id. -/
theorem C3_witness :
    processFiles wMd 0 ⟨[], []⟩ [⟨"notes.txt", ["junk"]⟩] =
      processFiles wMd 0 ⟨[], []⟩ []
    ∧ extractedPart "a_b_report.txt" ++ "_report.txt" = "a_b_report.txt" :=
  ⟨(C3_report_files_and_derivation wMd 0 ⟨[], []⟩ ⟨"notes.txt", ["junk"]⟩ []).1
      rfl,
   (C3_report_files_and_derivation wMd 0 ⟨[], []⟩ ⟨"a_b_report.txt", []⟩ []).2.2
      rfl⟩

/-- Helper: a successful header lookup yields one value per header. -/
theorem lookupAll_length (rec : RecordDict) (cs : List String)
    (vs : List String) (h : lookupAll rec cs = some vs) :
    vs.length = cs.length := by
  induction cs generalizing vs with
  | nil =>
    simp only [lookupAll, Option.some.injEq] at h
    simp [← h]
  | cons c cs ih =>
    simp only [lookupAll] at h
    cases hd : dlookup rec c with
    | none => rw [hd] at h; exact absurd h (by simp)
    | some v =>
      rw [hd] at h
      cases hrest : lookupAll rec cs with
      | none => rw [hrest] at h; exact absurd h (by simp)
      | some vs2 =>
        rw [hrest] at h
        simp only [Option.some.injEq] at h
        rw [← h]
        simp [ih vs2 hrest]

/-- Helper: every value produced by the header lookup is the stored value
of some header column. -/
theorem lookupAll_mem (rec : RecordDict) (cs : List String)
    (vs : List String) (h : lookupAll rec cs = some vs) :
    ∀ v ∈ vs, ∃ c ∈ cs, dlookup rec c = some v := by
  induction cs generalizing vs with
  | nil =>
    simp only [lookupAll, Option.some.injEq] at h
    simp [← h]
  | cons c cs ih =>
    simp only [lookupAll] at h
    cases hd : dlookup rec c with
    | none => rw [hd] at h; exact absurd h (by simp)
    | some v =>
      rw [hd] at h
      cases hrest : lookupAll rec cs with
      | none => rw [hrest] at h; exact absurd h (by simp)
      | some vs2 =>
        rw [hrest] at h
        simp only [Option.some.injEq] at h
        intro x hx
        rw [← h] at hx
        rcases List.mem_cons.mp hx with hx | hx
        · exact ⟨c, List.mem_cons_self c cs, by rw [hd, hx]⟩
        · obtain ⟨c2, hc2, hdl⟩ := ih vs2 hrest x hx
          exact ⟨c2, List.mem_cons_of_mem c hc2, hdl⟩

/-- C7 (amended): a data row written for the merged table re-parses by
splitting on tab into exactly one field per header column, provided none
of the written values contains a tab character. -/
theorem C7_roundtrip_tab_free (md : Metadata) (rec : RecordDict) (row : String)
    (hr : renderRow (mergedHeaders md) rec = some row)
    (hv : ∀ c ∈ mergedHeaders md,
      (((dlookup rec c).getD "").data.contains '\t') = false) :
    (pySplit '\t' row).length = (mergedHeaders md).length := by
  unfold renderRow at hr
  cases hl : lookupAll rec (mergedHeaders md) with
  | none => rw [hl] at hr; exact absurd hr (by simp)
  | some vals =>
    rw [hl] at hr
    simp only [Option.map_some', Option.some.injEq] at hr
    have hlen := lookupAll_length rec (mergedHeaders md) vals hl
    have hfree : ∀ x ∈ vals, '\t' ∉ x.data := by
      intro x hx
      obtain ⟨c, hc, hdl⟩ := lookupAll_mem rec (mergedHeaders md) vals hl x hx
      have hcnt := hv c hc
      rw [hdl] at hcnt
      simpa using hcnt
    have hne : vals ≠ [] := by
      intro h0
      rw [h0] at hlen
      simp [mergedHeaders] at hlen
    rw [← hr, pySplit_pyJoin "\t" '\t' (by decide) vals hne hfree, hlen]

/-- C7 witness: applying `C7_roundtrip_tab_free` to the fixture record,
whose written row carries tab-free values. -/
theorem C7_witness :
    (pySplit '\t' "12.5\t100\t50\tS\t9606\tHomo sapiens\tS1\tn1").length =
      (mergedHeaders wMd).length :=
  C7_roundtrip_tab_free wMd wRec "12.5\t100\t50\tS\t9606\tHomo sapiens\tS1\tn1"
    rfl (by decide)

/-- C7 counterexample: with a metadata value containing a tab, the
aggregation writes a data row that splits into 9 fields while the header
has 8 columns, so the written row does not re-parse into `len(header)`
fields. -/
theorem C7_roundtrip_counterexample :
    (aggregate_kraken_results wFsFalse (fun _ => c7md) "kd" c7files none
        (some c7md) 0).map
      (fun out => out.merged_lines.map (fun l => (pySplit '\t' l).length)) =
      some [8, 9]
    ∧ (mergedHeaders c7md).length = 8 := by
  constructor
  · rfl
  · rfl

end KrakenPipeline
